import Mathlib

/-!
Verification development for the LiveEdit backend worker pipeline
(`LiveEditBackend/video_tasks.py` and the `edit_video` route of
`LiveEditBackend/app.py`).

The Python code is shallowly embedded: JSON documents produced by
`json.loads` on the AI response become the inductive type `JVal`;
Python `float` values are modelled as exact rationals (decimal literals
parse to `m * 10^e`, so binary-float rounding is not modelled), with
transcendental/`repr` formatting steps abstracted as function
parameters; external effects (the Gemini generation call, `ffprobe`,
the database, the filesystem) are modelled as explicit oracle
parameters so each worker function becomes a pure, executable Lean
definition.
-/

/-- JSON-like dynamic values as produced by `json.loads` and handed to the
worker code untyped.  `num` holds non-integral numbers (Python floats). -/
inductive JVal where
  | null : JVal
  | bool : Bool → JVal
  | int : Int → JVal
  | num : Rat → JVal
  | str : String → JVal
  | arr : List JVal → JVal
  | obj : List (String × JVal) → JVal

/-- Lookup of a key in a JSON object association list (Python `dict.get`). -/
def jget (kvs : List (String × JVal)) (k : String) : Option JVal :=
  (kvs.find? (fun kv => kv.1 == k)).map (fun kv => kv.2)

/-- Whitespace stripping on character lists (Python `str.strip()`). -/
def trimChars (cs : List Char) : List Char :=
  ((cs.dropWhile Char.isWhitespace).reverse.dropWhile Char.isWhitespace).reverse

/-- Digit-string value: `some n` when `cs` is a nonempty run of ASCII digits. -/
def digitsToNat (cs : List Char) : Option Nat :=
  if !cs.isEmpty && cs.all Char.isDigit then
    some (cs.foldl (fun a c => a * 10 + (c.toNat - 48)) 0)
  else none

/-- Python `int(s)` on a string: optional surrounding whitespace, optional
sign, then decimal digits.  (Underscore digit separators are not modelled.) -/
def pyIntStr (s : String) : Option Int :=
  match trimChars s.toList with
  | '+' :: ds => (digitsToNat ds).map Int.ofNat
  | '-' :: ds => (digitsToNat ds).map (fun n => -(n : Int))
  | ds => (digitsToNat ds).map Int.ofNat

/-- Truncation toward zero of a rational, as Python `int(float)` does. -/
def ratTruncInt (q : Rat) : Int :=
  Int.tdiv q.num (q.den : Int)

/-- Python `int(x)` on a dynamic value: ints pass through, bools become 0/1,
floats truncate toward zero, strings are parsed; anything else raises
(`none`). -/
def pyInt : JVal → Option Int
  | .int i => some i
  | .bool b => some (if b then 1 else 0)
  | .num q => some (ratTruncInt q)
  | .str s => pyIntStr s
  | _ => none

/-- Exact decimal number `m * 10 ^ e`, the result of parsing a Python float
literal.  Kept in integer form so that concrete parses compute in the
kernel; converted to `Rat` only where the code does arithmetic. -/
structure PyDec where
  m : Int
  e : Int
deriving DecidableEq

/-- The rational value of a parsed decimal. -/
def tenPow (e : Int) : Rat :=
  if 0 ≤ e then (10 : Rat) ^ e.toNat else 1 / (10 : Rat) ^ (-e).toNat

/-- Rational value denoted by a `PyDec`. -/
def PyDec.toRat (d : PyDec) : Rat :=
  (d.m : Rat) * tenPow d.e

/-- Exponent part of a float literal: optional sign then digits. -/
def parseExpPart (cs : List Char) : Option Int :=
  match cs with
  | '+' :: ds => (digitsToNat ds).map Int.ofNat
  | '-' :: ds => (digitsToNat ds).map (fun n => -(n : Int))
  | ds => (digitsToNat ds).map Int.ofNat

/-- Mantissa of a float literal: digits, `digits.digits`, `digits.` or
`.digits`. -/
def parseMantissa (cs : List Char) : Option PyDec :=
  match cs.splitOn '.' with
  | [ip] => (digitsToNat ip).map (fun n => ⟨n, 0⟩)
  | [ip, fp] =>
    if ip.isEmpty && fp.isEmpty then none
    else if !ip.all Char.isDigit || !fp.all Char.isDigit then none
    else
      let ipn : Nat := ip.foldl (fun a c => a * 10 + (c.toNat - 48)) 0
      let fpn : Nat := fp.foldl (fun a c => a * 10 + (c.toNat - 48)) 0
      some ⟨ipn * 10 ^ fp.length + fpn, -(fp.length : Int)⟩
  | _ => none

/-- Unsigned float literal: mantissa with optional `e`/`E` exponent. -/
def pyFloatCore (cs : List Char) : Option PyDec :=
  match cs.findIdx? (fun c => c = 'e' || c = 'E') with
  | none => parseMantissa cs
  | some i =>
    (parseMantissa (cs.take i)).bind (fun d =>
      (parseExpPart (cs.drop (i + 1))).map (fun ex => ⟨d.m, d.e + ex⟩))

/-- Python `float(s)` as an exact decimal: optional whitespace, sign, decimal
mantissa, optional exponent.  `inf`/`nan` and underscore separators are not
modelled. -/
def pyFloat (s : String) : Option PyDec :=
  match trimChars s.toList with
  | '+' :: rest => pyFloatCore rest
  | '-' :: rest => (pyFloatCore rest).map (fun d => ⟨-d.m, d.e⟩)
  | rest => pyFloatCore rest

/-- Split a character list at every colon (Python `str.split(":")`). -/
def splitOnColon : List Char → List (List Char)
  | [] => [[]]
  | c :: rest =>
    match splitOnColon rest with
    | [] => [[c]]
    | g :: gs => if c = ':' then [] :: g :: gs else (c :: g) :: gs

/-- The stripped, nonempty colon-separated parts of a timecode string:
`[p.strip() for p in s.split(":") if p.strip()]`. -/
def splitParts (s : String) : List String :=
  ((splitOnColon s.toList).map (fun g => String.mk (trimChars g))).filter
    (fun p => !(p == ""))

/-- Embedding of `time_to_seconds` (video_tasks.py lines 115-128).  The
argument is `Option String` so that Python `None` (`none`) is representable;
Python float arithmetic is carried out over `Rat`. -/
def time_to_seconds (time_str : Option String) : Rat :=
  match time_str with
  | none => 0
  | some s =>
    if s = "" then 0
    else
      match splitParts s with
      | [a] => ((pyFloat a).map PyDec.toRat).getD 0
      | [a, b] =>
        match pyFloat a, pyFloat b with
        | some x, some y => x.toRat * 60 + y.toRat
        | _, _ => 0
      | [a, b, c] =>
        match pyFloat a, pyFloat b, pyFloat c with
        | some x, some y, some z => x.toRat * 3600 + y.toRat * 60 + z.toRat
        | _, _, _ => 0
      | _ => 0

/-- C5: `time_to_seconds` weights 1, 2 or 3 colon-delimited numeric parts by
{1}, {60,1} and {3600,60,1} respectively; `None`, empty and non-numeric
inputs yield exactly 0.0; the function is total (never raises). -/
theorem C5_time_to_seconds_spec (s : String) :
    (∀ a x, splitParts s = [a] → pyFloat a = some x →
      time_to_seconds (some s) = x.toRat) ∧
    (∀ a b x y, splitParts s = [a, b] → pyFloat a = some x → pyFloat b = some y →
      time_to_seconds (some s) = x.toRat * 60 + y.toRat) ∧
    (∀ a b c x y z, splitParts s = [a, b, c] →
      pyFloat a = some x → pyFloat b = some y → pyFloat c = some z →
      time_to_seconds (some s) = x.toRat * 3600 + y.toRat * 60 + z.toRat) ∧
    time_to_seconds none = 0 ∧
    time_to_seconds (some "") = 0 ∧
    ((∃ p ∈ splitParts s, pyFloat p = none) → time_to_seconds (some s) = 0) := by
  by_cases hs : s = ""
  · subst hs
    have hsplit : splitParts "" = [] := rfl
    refine ⟨?_, ?_, ?_, rfl, rfl, ?_⟩
    · intro a x h; rw [hsplit] at h; exact List.noConfusion h
    · intro a b x y h; rw [hsplit] at h; exact List.noConfusion h
    · intro a b c x y z h; rw [hsplit] at h; exact List.noConfusion h
    · rintro ⟨p, hp, -⟩; rw [hsplit] at hp; exact absurd hp (List.not_mem_nil p)
  · refine ⟨?_, ?_, ?_, rfl, by simp [time_to_seconds], ?_⟩
    · intro a x h hx
      simp [time_to_seconds, hs, h, hx]
    · intro a b x y h hx hy
      simp [time_to_seconds, hs, h, hx, hy]
    · intro a b c x y z h hx hy hz
      simp [time_to_seconds, hs, h, hx, hy, hz]
    · rintro ⟨p, hp, hnone⟩
      rcases hlist : splitParts s with _ | ⟨a, _ | ⟨b, _ | ⟨c, rest⟩⟩⟩ <;>
          rw [hlist] at hp
      · exact absurd hp (List.not_mem_nil p)
      · have hpa : p = a := by simpa using hp
        subst hpa
        simp [time_to_seconds, hs, hlist, hnone]
      · have hpa : p = a ∨ p = b := by simpa using hp
        rcases hpa with hpa | hpa <;> subst hpa
        · simp [time_to_seconds, hs, hlist, hnone]
        · rcases hfa : pyFloat a with _ | x <;>
            simp [time_to_seconds, hs, hlist, hfa, hnone]
      · rcases rest with _ | ⟨d, rest⟩
        · have hpa : p = a ∨ p = b ∨ p = c := by simpa using hp
          rcases hpa with hpa | hpa | hpa <;> subst hpa
          · simp [time_to_seconds, hs, hlist, hnone]
          · rcases hfa : pyFloat a with _ | x <;>
              simp [time_to_seconds, hs, hlist, hfa, hnone]
          · rcases hfa : pyFloat a with _ | x <;>
              rcases hfb : pyFloat b with _ | y <;>
              simp [time_to_seconds, hs, hlist, hfa, hfb, hnone]
        · simp [time_to_seconds, hs, hlist]

/-- Witness for C5 at the spec examples: a three-part timecode and a
non-numeric string. -/
theorem C5_time_to_seconds_witness :
    time_to_seconds (some "01:02:03.5") = 7447 / 2 ∧
    time_to_seconds (some "bad") = 0 := by
  constructor
  · have h := (C5_time_to_seconds_spec "01:02:03.5").2.2.1 "01" "02" "03.5"
      ⟨1, 0⟩ ⟨2, 0⟩ ⟨35, -1⟩ (by decide) (by decide) (by decide) (by decide)
    rw [h]
    norm_num [PyDec.toRat, tenPow]
  · exact (C5_time_to_seconds_spec "bad").2.2.2.2.2 ⟨"bad", by decide, by decide⟩

/-- Substring test on character lists: does `pat` occur contiguously in `s`
(Python `pat in s`)? -/
def isSubList (pat : List Char) : List Char → Bool
  | [] => pat.isEmpty
  | c :: rest => pat.isPrefixOf (c :: rest) || isSubList pat rest

/-- ASCII lowering of one character (the retry signals are ASCII, so this
matches Python `str.lower()` on the relevant alphabet). -/
def asciiLower (c : Char) : Char :=
  if 'A' ≤ c && c ≤ 'Z' then Char.ofNat (c.toNat + 32) else c

/-- The retryable-error signatures matched against the lowercased error text
(video_tasks.py line 73). -/
def retrySignals : List String :=
  ["503", "429", "unavailable", "overloaded", "timeout", "deadline"]

/-- Retryability classification of an error message:
`any(x in error_str.lower() for x in [...])`. -/
def isRetryable (err : String) : Bool :=
  retrySignals.any (fun sig => isSubList sig.toList (err.toList.map asciiLower))

/-- Outcome of one attempted generation call: either an error message or a
response (abstracted to a `Nat` identifier).  The attempt-indexed oracle
models `client.models.generate_content`. -/
abbrev GenOracle := Nat → Except String Nat

/-- Observable outcome of `call_gemini_with_retry`: the sleeps performed (in
seconds, in order), the number of attempts made, and the returned response or
raised error. -/
structure RetryResult where
  sleeps : List Rat
  attempts : Nat
  result : Except String Nat

/-- The retry loop of `call_gemini_with_retry` (video_tasks.py lines 48-91):
at attempt `attempt` (sleeps so far accumulated in reverse), a success
returns the response; a failure sleeps `initialWait * 2 ^ attempt` and
retries when attempts remain and the error is retryable, and otherwise
re-raises (both the non-retryable and the retries-exhausted branch raise
`last_error`).  Status-message side effects (`print`/`update_fn`) are not
modelled. -/
def retryLoop (oracle : GenOracle) (maxRetries : Nat) (initialWait : Rat) :
    Nat → List Rat → RetryResult
  | attempt, acc =>
    match oracle attempt with
    | .ok r => ⟨acc.reverse, attempt + 1, .ok r⟩
    | .error e =>
      if h : attempt < maxRetries ∧ isRetryable e = true then
        retryLoop oracle maxRetries initialWait (attempt + 1)
          (initialWait * 2 ^ attempt :: acc)
      else
        ⟨acc.reverse, attempt + 1, .error e⟩
termination_by attempt _ => maxRetries + 1 - attempt
decreasing_by omega

/-- Embedding of `call_gemini_with_retry` (video_tasks.py lines 29-91). -/
def call_gemini_with_retry (oracle : GenOracle) (maxRetries : Nat)
    (initialWait : Rat) : RetryResult :=
  retryLoop oracle maxRetries initialWait 0 []

/-- The exponential backoff schedule for `k` sleeps. -/
def expSleeps (initialWait : Rat) (k : Nat) : List Rat :=
  (List.range k).map (fun i => initialWait * 2 ^ i)

theorem expSleeps_succ (iw : Rat) (k : Nat) :
    expSleeps iw (k + 1) = expSleeps iw k ++ [iw * 2 ^ k] := by
  simp [expSleeps, List.range_succ]

theorem retryLoop_eq (oracle : GenOracle) (mr : Nat) (iw : Rat)
    (attempt : Nat) (acc : List Rat) :
    retryLoop oracle mr iw attempt acc =
      match oracle attempt with
      | .ok r => ⟨acc.reverse, attempt + 1, .ok r⟩
      | .error e =>
        if attempt < mr ∧ isRetryable e = true then
          retryLoop oracle mr iw (attempt + 1) (iw * 2 ^ attempt :: acc)
        else
          ⟨acc.reverse, attempt + 1, .error e⟩ := by
  rw [retryLoop]
  rcases oracle attempt with e | r
  · by_cases h : attempt < mr ∧ isRetryable e = true <;> simp [h]
  · rfl

/-- A run whose first `k` attempts all fail with retryable errors walks the
loop to attempt `k`, having accumulated the exponential backoff schedule. -/
theorem retryLoop_reach (oracle : GenOracle) (mr : Nat) (iw : Rat) (k : Nat)
    (hk : k ≤ mr)
    (hfail : ∀ j, j < k → ∃ e, oracle j = .error e ∧ isRetryable e = true) :
    retryLoop oracle mr iw 0 [] = retryLoop oracle mr iw k (expSleeps iw k).reverse := by
  induction k with
  | zero => rfl
  | succ k ih =>
    have hstep := ih (Nat.le_of_succ_le hk)
      (fun j hj => hfail j (Nat.lt_succ_of_lt hj))
    rw [hstep, retryLoop_eq]
    rcases hfail k (Nat.lt_succ_self k) with ⟨e, he, hr⟩
    rw [he]
    have hklt : k < mr := Nat.lt_of_succ_le hk
    simp [hklt, hr, expSleeps_succ]

/-- Invariant giving the unconditional facts: starting at `attempt` with the
matching accumulated schedule, the final sleeps are the full schedule for
`attempts - 1`, and the attempt count lands in `(attempt, mr + 1]`. -/
theorem retryLoop_inv (oracle : GenOracle) (mr : Nat) (iw : Rat) :
    ∀ fuel attempt, mr + 1 - attempt ≤ fuel → attempt ≤ mr →
      (retryLoop oracle mr iw attempt (expSleeps iw attempt).reverse).sleeps =
        expSleeps iw
          ((retryLoop oracle mr iw attempt (expSleeps iw attempt).reverse).attempts - 1) ∧
      attempt < (retryLoop oracle mr iw attempt (expSleeps iw attempt).reverse).attempts ∧
      (retryLoop oracle mr iw attempt (expSleeps iw attempt).reverse).attempts ≤ mr + 1 := by
  intro fuel
  induction fuel with
  | zero => intro attempt hfuel hle; omega
  | succ fuel ih =>
    intro attempt hfuel hle
    rw [retryLoop_eq]
    rcases horacle : oracle attempt with e | r
    · by_cases hcond : attempt < mr ∧ isRetryable e = true
      · have hacc : iw * 2 ^ attempt :: (expSleeps iw attempt).reverse =
            (expSleeps iw (attempt + 1)).reverse := by
          rw [expSleeps_succ]; simp
        have h := ih (attempt + 1) (by omega) (by omega)
        rw [← hacc] at h
        simp only [hcond.1, hcond.2]
        simp only [if_true, true_and]
        exact ⟨h.1, by omega, h.2.2⟩
      · rcases hbool : isRetryable e with _ | _
        · simp [hbool]
          omega
        · have hge : ¬ attempt < mr := by
            intro hlt; exact hcond ⟨hlt, hbool⟩
          simp [hbool, hge]
          omega
    · simp
      omega

/-- C1: the retry invoker `call_gemini_with_retry` makes at most
`maxRetries + 1` attempts; its sleeps follow the pure exponential schedule
`initialWait * 2 ^ attempt` (so consecutive sleeps double); a prefix of
retryable failures followed by a non-retryable failure raises that error
with no further sleep; if every attempt fails retryably the last error is
raised after `maxRetries + 1` attempts; and the first successful attempt's
response is returned. -/
theorem C1_call_gemini_with_retry_spec (oracle : GenOracle) (maxRetries : Nat)
    (initialWait : Rat) :
    (call_gemini_with_retry oracle maxRetries initialWait).attempts ≤ maxRetries + 1 ∧
    (call_gemini_with_retry oracle maxRetries initialWait).sleeps =
      expSleeps initialWait
        ((call_gemini_with_retry oracle maxRetries initialWait).attempts - 1) ∧
    (∀ k e, k ≤ maxRetries → oracle k = .error e → isRetryable e = false →
      (∀ j, j < k → ∃ e', oracle j = .error e' ∧ isRetryable e' = true) →
      call_gemini_with_retry oracle maxRetries initialWait =
        ⟨expSleeps initialWait k, k + 1, .error e⟩) ∧
    ((∀ j, j ≤ maxRetries → ∃ e, oracle j = .error e ∧ isRetryable e = true) →
      (call_gemini_with_retry oracle maxRetries initialWait).attempts = maxRetries + 1 ∧
      (call_gemini_with_retry oracle maxRetries initialWait).result = oracle maxRetries) ∧
    (∀ k r, k ≤ maxRetries → oracle k = .ok r →
      (∀ j, j < k → ∃ e, oracle j = .error e ∧ isRetryable e = true) →
      call_gemini_with_retry oracle maxRetries initialWait =
        ⟨expSleeps initialWait k, k + 1, .ok r⟩) := by
  have hinv := retryLoop_inv oracle maxRetries initialWait (maxRetries + 1) 0
    (by omega) (by omega)
  have hzero : (expSleeps initialWait 0).reverse = ([] : List Rat) := rfl
  rw [hzero] at hinv
  refine ⟨hinv.2.2, hinv.1, ?_, ?_, ?_⟩
  · intro k e hk he hnr hfail
    rw [call_gemini_with_retry,
      retryLoop_reach oracle maxRetries initialWait k hk hfail,
      retryLoop_eq, he]
    simp [hnr]
  · intro hfail
    rcases hfail maxRetries (Nat.le_refl _) with ⟨e, he, hr⟩
    have hreach := retryLoop_reach oracle maxRetries initialWait maxRetries
      (Nat.le_refl _) (fun j hj => hfail j (Nat.le_of_lt hj))
    rw [call_gemini_with_retry, hreach, retryLoop_eq, he]
    simp [he]
  · intro k r hk hr hfail
    rw [call_gemini_with_retry,
      retryLoop_reach oracle maxRetries initialWait k hk hfail,
      retryLoop_eq, hr]
    simp

/-- Concrete generation oracle for the C1 witness: two retryable failures,
then success. -/
def c1Oracle : GenOracle := fun a =>
  if a = 0 then .error "503 UNAVAILABLE"
  else if a = 1 then .error "the model is overloaded, please retry"
  else .ok 7

/-- Witness for C1: with `max_retries = 3`, `initial_wait = 2`, two retryable
failures followed by a success return the response on the third attempt after
sleeping 2 then 4 seconds. -/
theorem C1_call_gemini_with_retry_witness :
    call_gemini_with_retry c1Oracle 3 2 = ⟨[2, 4], 3, .ok 7⟩ := by
  have h := (C1_call_gemini_with_retry_spec c1Oracle 3 2).2.2.2.2 2 7
    (by omega) rfl
    (by
      intro j hj
      interval_cases j
      · exact ⟨"503 UNAVAILABLE", rfl, by decide⟩
      · exact ⟨"the model is overloaded, please retry", rfl, by decide⟩)
  rw [h]
  have hs2 : expSleeps 2 2 = [2, 4] := by
    simp [expSleeps, List.range_succ]
    norm_num
  rw [hs2]

/-- Opening brace character. -/
def lbrace : Char := Char.ofNat 123

/-- Closing brace character. -/
def rbrace : Char := Char.ofNat 125

/-- Python `str.find`: index of the first occurrence of `c`, or `-1`. -/
def pyFindL (c : Char) : List Char → Int
  | [] => -1
  | x :: rest =>
    if x = c then 0
    else if pyFindL c rest = -1 then -1 else pyFindL c rest + 1

/-- Python `str.rfind`: index of the last occurrence of `c`, or `-1`. -/
def pyRFindL (c : Char) : List Char → Int
  | [] => -1
  | x :: rest =>
    if pyRFindL c rest = -1 then (if x = c then 0 else -1)
    else pyRFindL c rest + 1

theorem pyFindL_ge (c : Char) (cs : List Char) : -1 ≤ pyFindL c cs := by
  induction cs with
  | nil => simp [pyFindL]
  | cons x rest ih =>
    by_cases hx : x = c <;> by_cases hr : pyFindL c rest = -1 <;>
      simp [pyFindL, hx, hr] <;> omega

theorem pyRFindL_ge (c : Char) (cs : List Char) : -1 ≤ pyRFindL c cs := by
  induction cs with
  | nil => simp [pyRFindL]
  | cons x rest ih =>
    by_cases hx : x = c <;> by_cases hr : pyRFindL c rest = -1 <;>
      simp [pyRFindL, hx, hr] <;> omega

theorem pyFindL_get (c : Char) (cs : List Char) :
    ∀ i : Nat, pyFindL c cs = (i : Int) → cs[i]? = some c := by
  induction cs with
  | nil => intro i h; simp [pyFindL] at h
  | cons x rest ih =>
    intro i h
    by_cases hx : x = c
    · simp [pyFindL, hx] at h
      have : i = 0 := by omega
      subst this
      simp [hx]
    · by_cases hr : pyFindL c rest = -1
      · simp [pyFindL, hx, hr] at h
      · simp [pyFindL, hx, hr] at h
        have hge := pyFindL_ge c rest
        rcases i with _ | i
        · omega
        · have : pyFindL c rest = (i : Int) := by omega
          simpa using ih i this

theorem pyFindL_min (c : Char) (cs : List Char) :
    ∀ j : Nat, cs[j]? = some c → pyFindL c cs ≤ (j : Int) := by
  induction cs with
  | nil => intro j h; simp at h
  | cons x rest ih =>
    intro j h
    by_cases hx : x = c
    · simp [pyFindL, hx]
    · rcases j with _ | j
      · simp at h; exact absurd h hx
      · simp at h
        have hle := ih j h
        have hge := pyFindL_ge c rest
        by_cases hr : pyFindL c rest = -1 <;> simp [pyFindL, hx, hr] <;> omega

theorem pyRFindL_get (c : Char) (cs : List Char) :
    ∀ i : Nat, pyRFindL c cs = (i : Int) → cs[i]? = some c := by
  induction cs with
  | nil => intro i h; simp [pyRFindL] at h
  | cons x rest ih =>
    intro i h
    by_cases hr : pyRFindL c rest = -1
    · by_cases hx : x = c
      · simp [pyRFindL, hr, hx] at h
        have : i = 0 := by omega
        subst this
        simp [hx]
      · simp [pyRFindL, hr, hx] at h
    · simp [pyRFindL, hr] at h
      have hge := pyRFindL_ge c rest
      rcases i with _ | i
      · omega
      · have : pyRFindL c rest = (i : Int) := by omega
        simpa using ih i this

theorem pyRFindL_max (c : Char) (cs : List Char) :
    ∀ j : Nat, cs[j]? = some c → (j : Int) ≤ pyRFindL c cs := by
  induction cs with
  | nil => intro j h; simp at h
  | cons x rest ih =>
    intro j h
    rcases j with _ | j
    · have hge := pyRFindL_ge c rest
      by_cases hr : pyRFindL c rest = -1 <;>
        simp_all [pyRFindL] <;> omega
    · simp at h
      have hle := ih j h
      have hge := pyRFindL_ge c rest
      by_cases hr : pyRFindL c rest = -1 <;> simp [pyRFindL, hr] <;> omega

theorem pyFindL_mem_nonneg (c : Char) (cs : List Char) (j : Nat)
    (h : cs[j]? = some c) : 0 ≤ pyFindL c cs := by
  induction cs generalizing j with
  | nil => simp at h
  | cons x rest ih =>
    by_cases hx : x = c
    · simp [pyFindL, hx]
    · rcases j with _ | j
      · simp at h; exact absurd h hx
      · simp at h
        have := ih j h
        by_cases hr : pyFindL c rest = -1 <;> simp [pyFindL, hx, hr] <;> omega

/-- Python slice `cs[a:b]` for the nonnegative indices that arise here. -/
def pySlice (cs : List Char) (a b : Int) : List Char :=
  (cs.take b.toNat).drop a.toNat

/-- The substring of `text` from the first `{` through the last `}`
(`response_text[start:end]` in `parse_model_response`). -/
def braceSub (text : String) : String :=
  String.mk (pySlice text.toList (pyFindL lbrace text.toList)
    (pyRFindL rbrace text.toList + 1))

/-- The fallback object `{"summary": text, "key_events": [], "edit_plan": []}`. -/
def fallbackObj (s : String) : JVal :=
  .obj [("summary", .str s), ("key_events", .arr []), ("edit_plan", .arr [])]

/-- Embedding of `parse_model_response` (video_tasks.py lines 185-206) from
the extracted response text onward.  `decode` abstracts `json.loads`
restricted to its success/`JSONDecodeError` behaviour (`none` = raise). -/
def parse_model_response (decode : String → Option JVal) (text : String) : JVal :=
  if pyFindL lbrace text.toList ≠ -1 ∧
      pyRFindL rbrace text.toList + 1 > pyFindL lbrace text.toList then
    match decode (braceSub text) with
    | some v => v
    | none => fallbackObj text
  else fallbackObj text

/-- C4: `parse_model_response` is total (never raises); when the text has a
`{` with a later `}` it returns the decoded first-`{`-to-last-`}` substring
if that substring is valid JSON, and otherwise — decode failure or no such
brace pair — returns the fallback object
`{"summary": text, "key_events": [], "edit_plan": []}`. -/
theorem C4_parse_model_response_spec (decode : String → Option JVal) (text : String) :
    (∀ i j : Nat, text.toList[i]? = some lbrace → text.toList[j]? = some rbrace →
      i < j → ∀ v, decode (braceSub text) = some v →
      parse_model_response decode text = v) ∧
    (∀ i j : Nat, text.toList[i]? = some lbrace → text.toList[j]? = some rbrace →
      i < j → decode (braceSub text) = none →
      parse_model_response decode text = fallbackObj text) ∧
    ((¬ ∃ i j : Nat, i < j ∧ text.toList[i]? = some lbrace ∧
        text.toList[j]? = some rbrace) →
      parse_model_response decode text = fallbackObj text) := by
  have hcond : ∀ i j : Nat, text.toList[i]? = some lbrace →
      text.toList[j]? = some rbrace → i < j →
      pyFindL lbrace text.toList ≠ -1 ∧
        pyRFindL rbrace text.toList + 1 > pyFindL lbrace text.toList := by
    intro i j hi hj hij
    have h0 := pyFindL_mem_nonneg lbrace text.toList i hi
    have h1 := pyFindL_min lbrace text.toList i hi
    have h2 := pyRFindL_max rbrace text.toList j hj
    constructor
    · omega
    · omega
  refine ⟨?_, ?_, ?_⟩
  · intro i j hi hj hij v hv
    rw [parse_model_response, if_pos (hcond i j hi hj hij), hv]
  · intro i j hi hj hij hv
    rw [parse_model_response, if_pos (hcond i j hi hj hij), hv]
  · intro hno
    rw [parse_model_response, if_neg]
    rintro ⟨hne, hgt⟩
    have hge := pyFindL_ge lbrace text.toList
    have hstart0 : 0 ≤ pyFindL lbrace text.toList := by omega
    set st := pyFindL lbrace text.toList with hst
    set rf := pyRFindL rbrace text.toList with hrf
    have hsti : st = (st.toNat : Int) := (Int.toNat_of_nonneg hstart0).symm
    have hgetst : text.toList[st.toNat]? = some lbrace :=
      pyFindL_get lbrace text.toList st.toNat (by omega)
    have hrf0 : 0 ≤ rf := by omega
    have hgetrf : text.toList[rf.toNat]? = some rbrace :=
      pyRFindL_get rbrace text.toList rf.toNat (by omega)
    by_cases heq : st.toNat = rf.toNat
    · rw [heq] at hgetst
      rw [hgetst] at hgetrf
      have : lbrace = rbrace := by injection hgetrf
      exact absurd this (by decide)
    · exact hno ⟨st.toNat, rf.toNat, by omega, hgetst, hgetrf⟩

/-- Concrete decoder for the C4 witness: accepts exactly the two-character
object text. -/
def c4Decode : String → Option JVal :=
  fun s => if s = "\x7b\x7d" then some (.obj []) else none

/-- Witness for C4: prose around an embedded JSON object parses to the
decoded object. -/
theorem C4_parse_model_response_witness :
    parse_model_response c4Decode "blah \x7b\x7d blah" = .obj [] := by
  exact (C4_parse_model_response_spec c4Decode "blah \x7b\x7d blah").1 5 6
    (by decide) (by decide) (by omega) (.obj []) rfl

/-- Bounds check `0 <= idx < n` on a coerced index. -/
def inRangeInt (n : Nat) (i : Int) : Bool :=
  decide (0 ≤ i) && decide (i < (n : Int))

/-- Loop body of the ordering pass in `edit_multi_task` (video_tasks.py lines
543-550): coerce the entry with `int(...)`, skip on failure, and append when
in range and not already collected. -/
def orderStep (n : Nat) (acc : List Int) (item : JVal) : List Int :=
  match pyInt item with
  | none => acc
  | some idx =>
    if 0 ≤ idx ∧ idx < (n : Int) ∧ idx ∉ acc then acc ++ [idx] else acc

/-- The identity fallback ordering `list(range(n))`. -/
def fallbackOrder (n : Nat) : List Int :=
  (List.range n).map (fun i : Nat => (i : Int))

/-- The collected order list before the fallback: the loop over `raw_order`
when it is a list, `[]` otherwise (`isinstance(raw_order, list)` guard). -/
def baseOrder (rawOrder : Option JVal) (n : Nat) : List Int :=
  match rawOrder with
  | some (.arr items) => items.foldl (orderStep n) []
  | _ => []

/-- Embedding of the `clean_order` computation of `edit_multi_task`
(video_tasks.py lines 541-552): `rawOrder` is `plan.get("order")` (`none`
when the plan is not a dict or has no such key); non-list values are ignored;
an empty result falls back to `[0 .. n-1]`. -/
def cleanOrder (rawOrder : Option JVal) (n : Nat) : List Int :=
  if baseOrder rawOrder n = [] then fallbackOrder n else baseOrder rawOrder n

/-- First-occurrence deduplication, written as the spec describes it. -/
def dedupFirst : List Int → List Int
  | [] => []
  | a :: l => a :: dedupFirst (l.filter (fun b => b != a))
termination_by l => l.length
decreasing_by
  simpa using Nat.lt_succ_of_le (List.length_filter_le _ l)

/-- The order entries that coerce (via Python `int`) to an in-range index. -/
def coercedOrder (rawOrder : Option JVal) (n : Nat) : List Int :=
  match rawOrder with
  | some (.arr items) => (items.filterMap pyInt).filter (inRangeInt n)
  | _ => []

/-- The C2 ordering as the claim is worded once coercion is acknowledged:
coerced in-range entries, deduplicated keeping the first occurrence, with
fallback `[0 .. n-1]` when empty. -/
def specOrderingAmended (rawOrder : Option JVal) (n : Nat) : List Int :=
  if dedupFirst (coercedOrder rawOrder n) = [] then fallbackOrder n
  else dedupFirst (coercedOrder rawOrder n)

/-- The order entries that ARE integers (the claim's literal wording). -/
def intOnlyOrder (rawOrder : Option JVal) (n : Nat) : List Int :=
  match rawOrder with
  | some (.arr items) =>
    (items.filterMap (fun v => match v with | .int i => some i | _ => none)).filter
      (inRangeInt n)
  | _ => []

/-- The C2 ordering exactly as claimed: only entries that ARE integers are
kept (no coercion of strings, bools or floats). -/
def specOrderingClaimed (rawOrder : Option JVal) (n : Nat) : List Int :=
  if dedupFirst (intOnlyOrder rawOrder n) = [] then fallbackOrder n
  else dedupFirst (intOnlyOrder rawOrder n)

theorem foldl_orderStep_eq (n : Nat) (items : List JVal) :
    ∀ acc, items.foldl (orderStep n) acc =
      ((items.filterMap pyInt).filter (inRangeInt n)).foldl
        (fun acc x => if x ∈ acc then acc else acc ++ [x]) acc := by
  induction items with
  | nil => intro acc; rfl
  | cons item items ih =>
    intro acc
    rcases hitem : pyInt item with _ | idx
    · simp only [List.foldl_cons, orderStep, hitem, List.filterMap_cons]
      exact ih acc
    · by_cases hrange : inRangeInt n idx = true
      · have h0 : (0 : Int) ≤ idx := by
          simp [inRangeInt] at hrange; exact hrange.1
        have h1 : idx < (n : Int) := by
          simp [inRangeInt] at hrange; exact hrange.2
        have hlist : ((item :: items).filterMap pyInt).filter (inRangeInt n) =
            idx :: (items.filterMap pyInt).filter (inRangeInt n) := by
          simp [List.filterMap_cons, hitem, List.filter_cons, hrange]
        rw [hlist, List.foldl_cons, List.foldl_cons]
        by_cases hmem : idx ∈ acc
        · rw [if_pos hmem]
          have hstep : orderStep n acc item = acc := by
            simp only [orderStep, hitem]
            rw [if_neg (by tauto)]
          rw [hstep]
          exact ih acc
        · rw [if_neg hmem]
          have hstep : orderStep n acc item = acc ++ [idx] := by
            simp only [orderStep, hitem]
            rw [if_pos ⟨h0, h1, hmem⟩]
          rw [hstep]
          exact ih (acc ++ [idx])
      · have hlist : ((item :: items).filterMap pyInt).filter (inRangeInt n) =
            (items.filterMap pyInt).filter (inRangeInt n) := by
          simp only [List.filterMap_cons, hitem, List.filter_cons]
          rw [if_neg (by simp [hrange])]
        have hfail : ¬ (0 ≤ idx ∧ idx < (n : Int) ∧ idx ∉ acc) := by
          intro hc
          exact hrange (by simp [inRangeInt, hc.1, hc.2.1])
        have hstep : orderStep n acc item = acc := by
          simp only [orderStep, hitem]
          rw [if_neg hfail]
        rw [hlist, List.foldl_cons, hstep]
        exact ih acc

theorem foldl_dedup_eq :
    ∀ (xs acc : List Int),
      xs.foldl (fun acc x => if x ∈ acc then acc else acc ++ [x]) acc =
        acc ++ dedupFirst (xs.filter (fun b => decide (b ∉ acc))) := by
  intro xs
  induction xs with
  | nil => intro acc; simp [dedupFirst]
  | cons x xs ih =>
    intro acc
    by_cases hmem : x ∈ acc
    · rw [List.foldl_cons, if_pos hmem, ih]
      have hfc : (x :: xs).filter (fun b => decide (b ∉ acc)) =
          xs.filter (fun b => decide (b ∉ acc)) := by
        rw [List.filter_cons]
        rw [if_neg (by simp [hmem])]
      rw [hfc]
    · rw [List.foldl_cons, if_neg hmem, ih]
      have hfc : (x :: xs).filter (fun b => decide (b ∉ acc)) =
          x :: xs.filter (fun b => decide (b ∉ acc)) := by
        rw [List.filter_cons]
        rw [if_pos (by simp [hmem])]
      rw [hfc, dedupFirst]
      have hfilters : xs.filter (fun b => decide (b ∉ acc ++ [x])) =
          ((xs.filter (fun b => decide (b ∉ acc))).filter (fun b => b != x)) := by
        rw [List.filter_filter]
        refine (List.filter_congr ?_).symm
        intro b _
        by_cases hbx : b = x <;> by_cases hba : b ∈ acc <;>
          simp [hbx, hba, List.mem_append]
      rw [hfilters, List.append_assoc]
      rfl

theorem dedupFirst_subset : ∀ (l : List Int) (x : Int), x ∈ dedupFirst l → x ∈ l := by
  intro l
  induction l using dedupFirst.induct with
  | case1 => intro x hx; rw [dedupFirst] at hx; simp at hx
  | case2 a l ih =>
    intro x hx
    rw [dedupFirst] at hx
    rcases List.mem_cons.mp hx with h | h
    · simp [h]
    · exact List.mem_cons_of_mem a (List.mem_of_mem_filter (ih x h))

theorem dedupFirst_nodup : ∀ (l : List Int), (dedupFirst l).Nodup := by
  intro l
  induction l using dedupFirst.induct with
  | case1 => rw [dedupFirst]; exact List.nodup_nil
  | case2 a l ih =>
    rw [dedupFirst]
    refine List.nodup_cons.mpr ⟨?_, ih⟩
    intro hmem
    rcases List.mem_filter.mp (dedupFirst_subset _ _ hmem) with ⟨-, hne⟩
    simp at hne

theorem baseOrder_eq (rawOrder : Option JVal) (n : Nat) :
    baseOrder rawOrder n = dedupFirst (coercedOrder rawOrder n) := by
  have hnil : ([] : List Int) = dedupFirst [] := by rw [dedupFirst]
  rcases rawOrder with _ | v
  · exact hnil
  · rcases v with _ | b | i | q | s | items | kvs
    · exact hnil
    · exact hnil
    · exact hnil
    · exact hnil
    · exact hnil
    · show items.foldl (orderStep n) [] =
        dedupFirst ((items.filterMap pyInt).filter (inRangeInt n))
      rw [foldl_orderStep_eq, foldl_dedup_eq, List.nil_append]
      congr 1
      refine List.filter_eq_self.mpr ?_
      intro a _
      simp
    · exact hnil

theorem cleanOrder_eq_amended (rawOrder : Option JVal) (n : Nat) :
    cleanOrder rawOrder n = specOrderingAmended rawOrder n := by
  rw [cleanOrder, specOrderingAmended, baseOrder_eq]

/-- C2 counterexample: the claim keeps only entries that are integers, but the
code coerces with Python `int(...)`, so the string entry `"1"` is kept:
`order=["1"]` with 3 clips compiles to `[1]`, not to the claimed fallback
`[0, 1, 2]`. -/
theorem C2_clean_order_counterexample :
    cleanOrder (some (.arr [.str "1"])) 3 = [1] ∧
    specOrderingClaimed (some (.arr [.str "1"])) 3 = [0, 1, 2] ∧
    cleanOrder (some (.arr [.str "1"])) 3 ≠
      specOrderingClaimed (some (.arr [.str "1"])) 3 := by
  have h1 : cleanOrder (some (.arr [.str "1"])) 3 = [1] := by decide
  have h2 : specOrderingClaimed (some (.arr [.str "1"])) 3 = [0, 1, 2] := by
    rw [specOrderingClaimed]
    rw [show intOnlyOrder (some (.arr [.str "1"])) 3 = ([] : List Int) from by decide]
    rw [show dedupFirst [] = [] from by rw [dedupFirst]]
    decide
  refine ⟨h1, h2, ?_⟩
  rw [h1, h2]
  decide

/-- C2 (amended): the compiled ordering consists of exactly those entries of
`order` that COERCE via Python `int` to an integer within `[0, n)`,
deduplicated keeping the first occurrence in their original relative order;
when that filtered list is empty (including absent or non-list `order`) the
ordering falls back to `[0 .. n-1]`; every index in the result is unique and
in range. -/
theorem C2_clean_order_spec (rawOrder : Option JVal) (n : Nat) :
    cleanOrder rawOrder n = specOrderingAmended rawOrder n ∧
    (cleanOrder rawOrder n).Nodup ∧
    (∀ i ∈ cleanOrder rawOrder n, 0 ≤ i ∧ i < (n : Int)) ∧
    (coercedOrder rawOrder n = [] → cleanOrder rawOrder n = fallbackOrder n) := by
  have heq := cleanOrder_eq_amended rawOrder n
  have hfallback_nodup : (fallbackOrder n).Nodup := by
    refine (List.nodup_range n).map ?_
    intro a b h
    exact Int.natCast_inj.mp h
  have hfallback_mem : ∀ i ∈ fallbackOrder n, 0 ≤ i ∧ i < (n : Int) := by
    intro i hi
    rcases List.mem_map.mp hi with ⟨j, hj, rfl⟩
    have := List.mem_range.mp hj
    omega
  have hcoerced_mem : ∀ i ∈ coercedOrder rawOrder n, 0 ≤ i ∧ i < (n : Int) := by
    intro i hi
    rcases rawOrder with _ | v
    · rw [show coercedOrder none n = [] from rfl] at hi; simp at hi
    · rcases v with _ | b | j | q | s | items | kvs
      · rw [show coercedOrder (some .null) n = [] from rfl] at hi; simp at hi
      · rw [show coercedOrder (some (.bool b)) n = [] from rfl] at hi; simp at hi
      · rw [show coercedOrder (some (.int j)) n = [] from rfl] at hi; simp at hi
      · rw [show coercedOrder (some (.num q)) n = [] from rfl] at hi; simp at hi
      · rw [show coercedOrder (some (.str s)) n = [] from rfl] at hi; simp at hi
      · rw [show coercedOrder (some (.arr items)) n =
          (items.filterMap pyInt).filter (inRangeInt n) from rfl] at hi
        rcases List.mem_filter.mp hi with ⟨-, hr⟩
        simp [inRangeInt] at hr
        omega
      · rw [show coercedOrder (some (.obj kvs)) n = [] from rfl] at hi; simp at hi
  refine ⟨heq, ?_, ?_, ?_⟩
  · rw [heq, specOrderingAmended]
    by_cases hd : dedupFirst (coercedOrder rawOrder n) = []
    · rw [if_pos hd]; exact hfallback_nodup
    · rw [if_neg hd]; exact dedupFirst_nodup _
  · rw [heq, specOrderingAmended]
    by_cases hd : dedupFirst (coercedOrder rawOrder n) = []
    · rw [if_pos hd]; exact hfallback_mem
    · rw [if_neg hd]
      intro i hi
      exact hcoerced_mem i (dedupFirst_subset _ _ hi)
  · intro hempty
    rw [heq, specOrderingAmended, hempty]
    rw [show dedupFirst [] = [] from by rw [dedupFirst]]
    rw [if_pos rfl]

/-- Witness for C2: the spec example `order=[5, 1, 1]` with 3 clips compiles
to `[1]`, and the amended characterisation agrees. -/
theorem C2_clean_order_witness :
    cleanOrder (some (.arr [.int 5, .int 1, .int 1])) 3 =
      specOrderingAmended (some (.arr [.int 5, .int 1, .int 1])) 3 ∧
    cleanOrder (some (.arr [.int 5, .int 1, .int 1])) 3 = [1] := by
  exact ⟨(C2_clean_order_spec (some (.arr [.int 5, .int 1, .int 1])) 3).1, by decide⟩

/-- Python `dict` modelled as an insertion log with last-write-wins lookup
(`d.get(k)` returns the value of the most recent assignment to `k`). -/
def dictGetLast {α : Type} (m : List (Int × α)) (k : Int) : Option α :=
  (m.reverse.find? (fun p => p.1 == k)).map (fun p => p.2)

/-- One iteration of the cuts loop of `edit_multi_task` (video_tasks.py lines
557-566): the entry must be a dict, its `clip` field must coerce via
`int(...)` (absent key gives Python `None`, which raises), and the index must
be in range; the stored value is the RAW `start`/`end` fields. -/
def cutEntry (n : Nat) (cut : JVal) : Option (Int × (Option JVal × Option JVal)) :=
  match cut with
  | .obj kvs =>
    match pyInt ((jget kvs "clip").getD .null) with
    | some idx =>
      if 0 ≤ idx ∧ idx < (n : Int) then
        some (idx, (jget kvs "start", jget kvs "end"))
      else none
    | none => none
  | _ => none

/-- Embedding of the `cuts_map` computation of `edit_multi_task`
(video_tasks.py lines 557-566): each valid entry performs a dict assignment,
modelled as appending to the insertion log. -/
def cutsMapOf (cuts : List JVal) (n : Nat) : List (Int × (Option JVal × Option JVal)) :=
  cuts.foldl (fun acc cut =>
    match cutEntry n cut with
    | some e => acc ++ [e]
    | none => acc) []

theorem cutsMapOf_eq_filterMap (cuts : List JVal) (n : Nat) :
    cutsMapOf cuts n = cuts.filterMap (cutEntry n) := by
  have hgen : ∀ (l : List JVal) (acc : List (Int × (Option JVal × Option JVal))),
      l.foldl (fun acc cut =>
        match cutEntry n cut with
        | some e => acc ++ [e]
        | none => acc) acc = acc ++ l.filterMap (cutEntry n) := by
    intro l
    induction l with
    | nil => intro acc; simp
    | cons c l ih =>
      intro acc
      rcases hc : cutEntry n c with _ | e <;>
        simp [List.filterMap_cons, hc, ih, List.append_assoc]
  simpa using hgen cuts []

theorem find?_reverse_eq_getLast? {α : Type} (p : α → Bool) :
    ∀ l : List α, l.reverse.find? p = (l.filter p).getLast? := by
  intro l
  induction l with
  | nil => rfl
  | cons x l ih =>
    rw [List.reverse_cons, List.find?_append, ih, List.filter_cons]
    by_cases hpx : p x = true
    · rw [if_pos hpx]
      rcases hfl : l.filter p with _ | ⟨y, ys⟩
      · simp [List.find?_cons, hpx]
      · rw [List.getLast?_cons_cons]
        rcases hgl : (y :: ys).getLast? with _ | g
        · exact absurd (List.getLast?_eq_none_iff.mp hgl) (by simp)
        · simp
    · rw [if_neg hpx]
      have : List.find? p [x] = none := by
        simp [List.find?_cons]
        rcases hb : p x with _ | _
        · rfl
        · exact absurd hb hpx
      rw [this]
      simp

/-- C10: in the cuts compilation of `edit_multi_task`, the map's value at
index `k` is the raw `start`/`end` pair of the LAST contributing entry with
that clip index (later entries overwrite earlier ones); an entry contributes
only when it is a dict whose `clip` field coerces via Python `int` to an
index within `[0, n)`; the stored values are the raw fields, not parsed
seconds. -/
theorem C10_cuts_map_spec (cuts : List JVal) (n : Nat) (k : Int) :
    dictGetLast (cutsMapOf cuts n) k =
      ((cuts.filterMap (cutEntry n)).filter (fun e => e.1 == k)).getLast?.map
        (fun e => e.2) ∧
    (∀ cut idx v, cutEntry n cut = some (idx, v) →
      ∃ kvs, cut = .obj kvs ∧
        pyInt ((jget kvs "clip").getD .null) = some idx ∧
        0 ≤ idx ∧ idx < (n : Int) ∧
        v = (jget kvs "start", jget kvs "end")) := by
  constructor
  · rw [cutsMapOf_eq_filterMap, dictGetLast, find?_reverse_eq_getLast?]
  · intro cut idx v h
    rcases cut with _ | b | i | q | s | items | kvs
    · exact Option.noConfusion h
    · exact Option.noConfusion h
    · exact Option.noConfusion h
    · exact Option.noConfusion h
    · exact Option.noConfusion h
    · exact Option.noConfusion h
    · rcases hpy : pyInt ((jget kvs "clip").getD .null) with _ | idx'
      · simp [cutEntry, hpy] at h
      · refine ⟨kvs, rfl, ?_⟩
        simp only [cutEntry, hpy, Option.ite_none_right_eq_some, Option.some.injEq,
          Prod.mk.injEq] at h
        obtain ⟨hrange, hidx, hv⟩ := h
        subst hidx
        exact ⟨hpy, hrange.1, hrange.2, hv.symm⟩

/-- Concrete cuts list for the C10 witness: two entries for clip 0 (the later
one must win), a non-dict entry, and an out-of-range entry. -/
def c10Cuts : List JVal :=
  [.obj [("clip", .int 0), ("start", .str "00:01")],
   .obj [("clip", .int 0), ("start", .str "00:02"), ("end", .str "00:05")],
   .str "junk",
   .obj [("clip", .int 7), ("start", .str "09:09")]]

/-- Witness for C10: with two entries for clip 0, the lookup returns the raw
start/end of the second one. -/
theorem C10_cuts_map_witness :
    dictGetLast (cutsMapOf c10Cuts 2) 0 =
      some (some (.str "00:02"), some (.str "00:05")) :=
  (C10_cuts_map_spec c10Cuts 2 0).1.trans rfl

/-- Python truthiness of a dynamic value. -/
def truthyJ : JVal → Bool
  | .null => false
  | .bool b => b
  | .int i => i != 0
  | .num q => q != 0
  | .str s => s != ""
  | .arr l => !l.isEmpty
  | .obj l => !l.isEmpty

/-- Python `str(v)`.  `fmt` abstracts the `repr` of floats; the `repr` of
containers is abstracted to a non-numeric token, which is indistinguishable
through `time_to_seconds` (both yield 0.0). -/
def pyStr (fmt : Rat → String) : JVal → String
  | .str s => s
  | .int i => toString i
  | .bool b => if b then "True" else "False"
  | .null => "None"
  | .num q => fmt q
  | .arr _ => ""
  | .obj _ => ""

/-- `time_to_seconds` applied to a dynamic value: the code's truthiness check
`if not time_str` sees the raw value, then the string form is split. -/
def t2sJ (fmt : Rat → String) (v : JVal) : Rat :=
  if truthyJ v then time_to_seconds (some (pyStr fmt v)) else 0

/-- The `between(t, start, end)` exclusion terms built from `cut`-typed
entries of the edit plan in `edit_video_task` (video_tasks.py lines
288-295). -/
def cutFilterParts (fmt : Rat → String) (edit_plan : List JVal) : List String :=
  edit_plan.filterMap (fun e =>
    match e with
    | .obj kvs =>
      match jget kvs "type" with
      | some (.str t) =>
        if t = "cut" then
          some ("between(t," ++
            fmt (t2sJ fmt ((jget kvs "start").getD (.str "00:00"))) ++ "," ++
            fmt (t2sJ fmt ((jget kvs "end").getD (.str "00:00"))) ++ ")")
        else none
      | _ => none
    | _ => none)

/-- Embedding of the single-clip cut command `cmd_cut` of `edit_video_task`
(video_tasks.py lines 296-309), for a plan whose cut terms are nonempty. -/
def buildCutCmd (fmt : Rat → String) (edit_plan : List JVal)
    (video_path temp_cut_path : String) : List String :=
  ["ffmpeg", "-i", video_path,
   "-vf", "select=\x27not(" ++ String.intercalate "+" (cutFilterParts fmt edit_plan) ++
     ")\x27,setpts=N/FRAME_RATE/TB",
   "-af", "aselect=\x27not(" ++ String.intercalate "+" (cutFilterParts fmt edit_plan) ++
     ")\x27,asetpts=N/SR/TB",
   "-y", temp_cut_path]

/-- Embedding of `build_ffmpeg_with_audio` (video_tasks.py lines 150-182).
`volFmt` abstracts the transcendental gain computation and formatting
`f"{10 ** (db / 20):.2f}"` applied to the dB value. -/
def build_ffmpeg_with_audio (volFmt : Rat → String)
    (input_video output_path audio_path : String)
    (audio_start : String) (audio_duck_db : Rat) : List String :=
  let delayMs := toString (ratTruncInt (time_to_seconds (some audio_start) * 1000))
  let audio_filter :=
    if audio_duck_db < 0 then
      "[0:a]volume=" ++ volFmt audio_duck_db ++ "[orig_audio];" ++
      "[1:a]adelay=" ++ delayMs ++ "|" ++ delayMs ++ "[effect_audio];" ++
      "[orig_audio][effect_audio]amix=inputs=2:duration=first[audio]"
    else
      "[1:a]adelay=" ++ delayMs ++ "|" ++ delayMs ++ "[effect_audio];" ++
      "[0:a][effect_audio]amix=inputs=2:duration=first[audio]"
  ["ffmpeg", "-i", input_video, "-i", audio_path, "-filter_complex", audio_filter,
   "-map", "0:v:0", "-map", "[audio]", "-c:v", "copy", "-c:a", "aac", "-y",
   output_path]

/-- Truthiness of an optional cut-boundary string (`if start:` in the code:
`None` and the empty string are falsy). -/
def truthyStr : Option String → Bool
  | none => false
  | some s => s != ""

/-- `start_sec = time_to_seconds(start) if start else None`. -/
def cutStartOpt (cut : Option String × Option String) : Option Rat :=
  if truthyStr cut.1 then some (time_to_seconds cut.1) else none

/-- `end_sec = time_to_seconds(end) if end else None`. -/
def cutEndOpt (cut : Option String × Option String) : Option Rat :=
  if truthyStr cut.2 then some (time_to_seconds cut.2) else none

/-- The `start=..`/`end=..` trim argument string (video_tasks.py lines
390-395). -/
def trimStrOf (fmt : Rat → String) (startSec endSec : Option Rat) : String :=
  String.intercalate ","
    ((match startSec with | some v => ["start=" ++ fmt v] | none => []) ++
     (match endSec with | some v => ["end=" ++ fmt v] | none => []))

/-- The per-clip video/audio filter chains of `build_concat_command`
(video_tasks.py lines 384-402): optional trim + timestamp reset, or just the
timestamp reset. -/
def clipChains (fmt : Rat → String) (cut : Option String × Option String) :
    List String × List String :=
  let startSec := cutStartOpt cut
  let endSec := cutEndOpt cut
  if startSec.isSome || endSec.isSome then
    (["trim=" ++ trimStrOf fmt startSec endSec, "setpts=PTS-STARTPTS"],
     ["atrim=" ++ trimStrOf fmt startSec endSec, "asetpts=PTS-STARTPTS"])
  else
    (["setpts=PTS-STARTPTS"], ["asetpts=PTS-STARTPTS"])

/-- The two complete labelled filter strings for clip `i` (video_tasks.py
lines 404-411): the video chain additionally scales to the target
dimensions. -/
def clipFilters (fmt : Rat → String)
    (cuts_map : List (Int × (Option String × Option String)))
    (tw th : Nat) (i : Nat) (origIdx : Int) : List String :=
  let cut := (dictGetLast cuts_map origIdx).getD (none, none)
  let ch := clipChains fmt cut
  let vch := ch.1 ++ ["scale=" ++ toString tw ++ ":" ++ toString th]
  ["[" ++ toString i ++ ":v]" ++ String.intercalate "," vch ++
     "[v" ++ toString i ++ "]",
   "[" ++ toString i ++ ":a]" ++ String.intercalate "," ch.2 ++
     "[a" ++ toString i ++ "]"]

/-- The `for i, (path, orig_idx) in enumerate(zip(...))` loop of
`build_concat_command`, appending the video filter then the audio filter of
each clip. -/
def concatFilterLoop (fmt : Rat → String)
    (cuts_map : List (Int × (Option String × Option String)))
    (tw th : Nat) : Nat → List (String × Int) → List String
  | _, [] => []
  | i, pr :: rest =>
    clipFilters fmt cuts_map tw th i pr.2 ++
      concatFilterLoop fmt cuts_map tw th (i + 1) rest

/-- The concatenated `[v0][a0][v1][a1]...` label block. -/
def concatLabels (k : Nat) : String :=
  String.join ((List.range k).map (fun i =>
    "[v" ++ toString i ++ "][a" ++ toString i ++ "]"))

/-- The full `filter_complex` parts list of `build_concat_command`
(video_tasks.py lines 358-417): per-clip chains then the final concat line
with `n = len(ordered_paths)`. -/
def concatFilterParts (probe : String → Option (Nat × Nat)) (fmt : Rat → String)
    (ordered_paths : List String) (order_orig_indices : List Int)
    (cuts_map : List (Int × (Option String × Option String))) : List String :=
  let dims := ordered_paths.map (fun p => (probe p).getD (854, 480))
  let td := dims.headD (854, 480)
  let pairs := ordered_paths.zip order_orig_indices
  concatFilterLoop fmt cuts_map td.1 td.2 0 pairs ++
    [concatLabels pairs.length ++ "concat=n=" ++ toString ordered_paths.length ++
      ":v=1:a=1[vout][aout]"]

/-- Embedding of `build_concat_command` (video_tasks.py lines 355-454).
`probe` abstracts `get_video_dimensions` (the ffprobe subprocess, `none` on
failure); `fmt` abstracts the `repr` of Python floats. -/
def build_concat_command (probe : String → Option (Nat × Nat)) (fmt : Rat → String)
    (ordered_paths : List String) (order_orig_indices : List Int)
    (cuts_map : List (Int × (Option String × Option String)))
    (concat_path : String) : List String :=
  ["ffmpeg"] ++ ordered_paths.bind (fun p => ["-i", p]) ++
  ["-filter_complex",
   String.intercalate ";"
     (concatFilterParts probe fmt ordered_paths order_orig_indices cuts_map),
   "-map", "[vout]", "-map", "[aout]", "-c:v", "libx264", "-preset", "medium",
   "-profile:v", "baseline", "-level", "3.0", "-pix_fmt", "yuv420p", "-crf", "23",
   "-g", "60", "-c:a", "aac", "-b:a", "128k", "-movflags", "+faststart", "-y",
   concat_path]

/-- The claim's target dimensions: the first ordered clip's probed size, with
854x480 substituted when the probe fails. -/
def specTargetDims (probe : String → Option (Nat × Nat)) (paths : List String) :
    Nat × Nat :=
  match paths with
  | [] => (854, 480)
  | p :: _ => (probe p).getD (854, 480)

/-- Does the cuts map hold an entry for this original index with a (truthy)
start or end? -/
def hasCutFor (cuts_map : List (Int × (Option String × Option String)))
    (origIdx : Int) : Bool :=
  match dictGetLast cuts_map origIdx with
  | some cut => truthyStr cut.1 || truthyStr cut.2
  | none => false

/-- The claim's video chain: trim (present iff the cuts map has an entry with
a start or end) then timestamp reset then scale to the target dimensions. -/
def specVChain (fmt : Rat → String)
    (cuts_map : List (Int × (Option String × Option String)))
    (td : Nat × Nat) (origIdx : Int) : List String :=
  let cut := (dictGetLast cuts_map origIdx).getD (none, none)
  (if hasCutFor cuts_map origIdx then
    ["trim=" ++ trimStrOf fmt (cutStartOpt cut) (cutEndOpt cut),
     "setpts=PTS-STARTPTS"]
  else ["setpts=PTS-STARTPTS"]) ++
    ["scale=" ++ toString td.1 ++ ":" ++ toString td.2]

/-- The claim's matching audio chain: atrim (same condition) then audio
timestamp reset. -/
def specAChain (fmt : Rat → String)
    (cuts_map : List (Int × (Option String × Option String)))
    (origIdx : Int) : List String :=
  let cut := (dictGetLast cuts_map origIdx).getD (none, none)
  if hasCutFor cuts_map origIdx then
    ["atrim=" ++ trimStrOf fmt (cutStartOpt cut) (cutEndOpt cut),
     "asetpts=PTS-STARTPTS"]
  else ["asetpts=PTS-STARTPTS"]

/-- The labelled video filter string for position `i`, per the claim. -/
def specVFilter (fmt : Rat → String)
    (cuts_map : List (Int × (Option String × Option String)))
    (td : Nat × Nat) (i : Nat) (origIdx : Int) : String :=
  "[" ++ toString i ++ ":v]" ++
    String.intercalate "," (specVChain fmt cuts_map td origIdx) ++
    "[v" ++ toString i ++ "]"

/-- The labelled audio filter string for position `i`, per the claim. -/
def specAFilter (fmt : Rat → String)
    (cuts_map : List (Int × (Option String × Option String)))
    (i : Nat) (origIdx : Int) : String :=
  "[" ++ toString i ++ ":a]" ++
    String.intercalate "," (specAChain fmt cuts_map origIdx) ++
    "[a" ++ toString i ++ "]"

theorem clipFilters_eq (fmt : Rat → String)
    (cm : List (Int × (Option String × Option String)))
    (tw th : Nat) (i : Nat) (oi : Int) :
    clipFilters fmt cm tw th i oi =
      [specVFilter fmt cm (tw, th) i oi, specAFilter fmt cm i oi] := by
  rcases hd : dictGetLast cm oi with _ | cut
  · simp [clipFilters, clipChains, specVFilter, specVChain, specAFilter,
      specAChain, hasCutFor, hd, cutStartOpt, cutEndOpt, truthyStr]
  · by_cases h1 : truthyStr cut.1 = true <;> by_cases h2 : truthyStr cut.2 = true <;>
      simp [clipFilters, clipChains, specVFilter, specVChain, specAFilter,
        specAChain, hasCutFor, hd, cutStartOpt, cutEndOpt, h1, h2]

theorem concatFilterLoop_length (fmt : Rat → String)
    (cm : List (Int × (Option String × Option String))) (tw th : Nat) :
    ∀ (l : List (String × Int)) (i : Nat),
      (concatFilterLoop fmt cm tw th i l).length = 2 * l.length := by
  intro l
  induction l with
  | nil => intro i; rfl
  | cons p rest ih =>
    intro i
    rw [concatFilterLoop, clipFilters_eq]
    simp [ih]
    ring

theorem concatFilterLoop_get (fmt : Rat → String)
    (cm : List (Int × (Option String × Option String))) (tw th : Nat) :
    ∀ (l : List (String × Int)) (i k : Nat) (pr : String × Int),
      l[k]? = some pr →
      (concatFilterLoop fmt cm tw th i l)[2 * k]? =
        some (specVFilter fmt cm (tw, th) (i + k) pr.2) ∧
      (concatFilterLoop fmt cm tw th i l)[2 * k + 1]? =
        some (specAFilter fmt cm (i + k) pr.2) := by
  intro l
  induction l with
  | nil => intro i k pr h; simp at h
  | cons p rest ih =>
    intro i k pr h
    rw [concatFilterLoop, clipFilters_eq]
    rcases k with _ | k
    · simp at h
      subst h
      refine ⟨by simp, by simp⟩
    · have h' : rest[k]? = some pr := by simpa using h
      have hih := ih (i + 1) k pr h'
      constructor
      · rw [show 2 * (k + 1) = 2 * k + 1 + 1 from by ring]
        simp only [List.cons_append, List.nil_append, List.getElem?_cons_succ]
        rw [show i + (k + 1) = i + 1 + k from by ring]
        exact hih.1
      · rw [show 2 * (k + 1) + 1 = 2 * k + 1 + 1 + 1 from by ring]
        simp only [List.cons_append, List.nil_append, List.getElem?_cons_succ]
        rw [show i + (k + 1) = i + 1 + k from by ring]
        exact hih.2

theorem zip_getElem?_some :
    ∀ (l1 : List String) (l2 : List Int) (k : Nat) (a : String) (b : Int),
      l1[k]? = some a → l2[k]? = some b → (l1.zip l2)[k]? = some (a, b) := by
  intro l1
  induction l1 with
  | nil => intro l2 k a b h _; simp at h
  | cons x xs ih =>
    intro l2 k a b h1 h2
    rcases l2 with _ | ⟨y, ys⟩
    · simp at h2
    · rcases k with _ | k
      · simp at h1 h2
        subst h1
        subst h2
        simp [List.zip_cons_cons]
      · simp only [List.getElem?_cons_succ] at h1 h2
        simp only [List.zip_cons_cons, List.getElem?_cons_succ]
        exact ih ys k a b h1 h2

/-- C6: for a nonempty ordered clip list (with matching original indices),
the concat command's filter graph has one video and one audio chain per clip
in order, where the i-th video chain is exactly: optional trim (present iff
the cuts map has an entry for that clip's original index with a start or an
end) then `setpts=PTS-STARTPTS` then a scale to the target dimensions — the
first clip's probed size with 854x480 substituted on probe failure — with the
matching atrim/asetpts audio chain, followed by a single concat line with
`n` equal to the number of clips; and the full command is the ffmpeg
invocation around exactly that filter graph. -/
theorem C6_build_concat_command_spec (probe : String → Option (Nat × Nat))
    (fmt : Rat → String) (paths : List String) (origIdx : List Int)
    (cm : List (Int × (Option String × Option String))) (cp : String)
    (hne : paths ≠ []) (hlen : origIdx.length = paths.length) :
    (concatFilterParts probe fmt paths origIdx cm).length = 2 * paths.length + 1 ∧
    (∀ k ov, origIdx[k]? = some ov → k < paths.length →
      (concatFilterParts probe fmt paths origIdx cm)[2 * k]? =
        some (specVFilter fmt cm (specTargetDims probe paths) k ov) ∧
      (concatFilterParts probe fmt paths origIdx cm)[2 * k + 1]? =
        some (specAFilter fmt cm k ov)) ∧
    (concatFilterParts probe fmt paths origIdx cm)[2 * paths.length]? =
      some (concatLabels paths.length ++ "concat=n=" ++ toString paths.length ++
        ":v=1:a=1[vout][aout]") ∧
    build_concat_command probe fmt paths origIdx cm cp =
      ["ffmpeg"] ++ paths.bind (fun p => ["-i", p]) ++
      ["-filter_complex",
       String.intercalate ";" (concatFilterParts probe fmt paths origIdx cm),
       "-map", "[vout]", "-map", "[aout]", "-c:v", "libx264", "-preset", "medium",
       "-profile:v", "baseline", "-level", "3.0", "-pix_fmt", "yuv420p",
       "-crf", "23", "-g", "60", "-c:a", "aac", "-b:a", "128k", "-movflags",
       "+faststart", "-y", cp] := by
  have hzl : (paths.zip origIdx).length = paths.length := by
    rw [List.length_zip, hlen, Nat.min_self]
  have htd : (paths.map (fun p => (probe p).getD (854, 480))).headD (854, 480) =
      specTargetDims probe paths := by
    rcases paths with _ | ⟨p0, ps⟩
    · exact absurd rfl hne
    · rfl
  have hparts : concatFilterParts probe fmt paths origIdx cm =
      concatFilterLoop fmt cm (specTargetDims probe paths).1
          (specTargetDims probe paths).2 0 (paths.zip origIdx) ++
        [concatLabels (paths.zip origIdx).length ++ "concat=n=" ++
          toString paths.length ++ ":v=1:a=1[vout][aout]"] := by
    rw [concatFilterParts, htd]
  have hlooplen := concatFilterLoop_length fmt cm (specTargetDims probe paths).1
    (specTargetDims probe paths).2 (paths.zip origIdx) 0
  refine ⟨?_, ?_, ?_, rfl⟩
  · rw [hparts]
    simp [hlooplen, hzl]
  · intro k ov hov hk
    have hpv : paths[k]? = some (paths.get ⟨k, hk⟩) := List.getElem?_eq_getElem hk
    have hz := zip_getElem?_some paths origIdx k (paths.get ⟨k, hk⟩) ov hpv hov
    have hget := concatFilterLoop_get fmt cm (specTargetDims probe paths).1
      (specTargetDims probe paths).2 (paths.zip origIdx) 0 k
      (paths.get ⟨k, hk⟩, ov) hz
    have hb1 : 2 * k < (concatFilterLoop fmt cm (specTargetDims probe paths).1
        (specTargetDims probe paths).2 0 (paths.zip origIdx)).length := by
      rw [hlooplen, hzl]; omega
    have hb2 : 2 * k + 1 < (concatFilterLoop fmt cm (specTargetDims probe paths).1
        (specTargetDims probe paths).2 0 (paths.zip origIdx)).length := by
      rw [hlooplen, hzl]; omega
    constructor
    · rw [hparts, List.getElem?_append_left hb1]
      have := hget.1
      simpa using this
    · rw [hparts, List.getElem?_append_left hb2]
      have := hget.2
      simpa using this
  · rw [hparts]
    rw [show 2 * paths.length = (concatFilterLoop fmt cm (specTargetDims probe paths).1
      (specTargetDims probe paths).2 0 (paths.zip origIdx)).length from by
        rw [hlooplen, hzl]]
    rw [List.getElem?_append_right (Nat.le_refl _)]
    simp [hzl]

/-- Concrete probe for the C6/C8 witnesses. -/
def c6Probe : String → Option (Nat × Nat) :=
  fun s => if s = "a.mp4" then some (640, 360) else none

/-- Concrete float formatter for the C6/C8 witnesses. -/
def c6Fmt : Rat → String :=
  fun q => toString q.num

/-- Witness for C6 at two clips in swapped order with an empty cuts map: the
concat line sits at position 4 with `n=2`. -/
theorem C6_build_concat_command_witness :
    (concatFilterParts c6Probe c6Fmt ["a.mp4", "b.mp4"] [1, 0] [])[4]? =
      some (concatLabels 2 ++ "concat=n=2:v=1:a=1[vout][aout]") := by
  have h := (C6_build_concat_command_spec c6Probe c6Fmt ["a.mp4", "b.mp4"] [1, 0]
    [] "out.mp4" (by simp) (by rfl)).2.2.1
  simpa using h

/-- C8: media-command building is deterministic.  The cut and audio-mix
builders are pure functions of their inputs (equal inputs give identical
argument lists), and the concat builder depends on the probing oracle only
through the probe results of the given paths: any two oracles agreeing on the
ordered paths yield identical argument lists.  No clock, randomness or other
ambient state enters any builder. -/
theorem C8_command_builders_deterministic (fmt volFmt : Rat → String) :
    (∀ (plan1 plan2 : List JVal) (vp tp : String), plan1 = plan2 →
      buildCutCmd fmt plan1 vp tp = buildCutCmd fmt plan2 vp tp) ∧
    (∀ (iv1 iv2 op ap st : String) (d : Rat), iv1 = iv2 →
      build_ffmpeg_with_audio volFmt iv1 op ap st d =
        build_ffmpeg_with_audio volFmt iv2 op ap st d) ∧
    (∀ (p1 p2 : String → Option (Nat × Nat)) (paths : List String)
        (oi : List Int) (cm : List (Int × (Option String × Option String)))
        (cp : String),
      (∀ p ∈ paths, p1 p = p2 p) →
      build_concat_command p1 fmt paths oi cm cp =
        build_concat_command p2 fmt paths oi cm cp) := by
  refine ⟨?_, ?_, ?_⟩
  · intro plan1 plan2 vp tp h
    rw [h]
  · intro iv1 iv2 op ap st d h
    rw [h]
  · intro p1 p2 paths oi cm cp h
    have hdims : paths.map (fun p => (p1 p).getD (854, 480)) =
        paths.map (fun p => (p2 p).getD (854, 480)) := by
      refine List.map_congr_left ?_
      intro a ha
      rw [h a ha]
    rw [build_concat_command, build_concat_command, concatFilterParts,
      concatFilterParts, hdims]

/-- Witness for C8: two oracles that agree on the listed path (but not
elsewhere) produce the same concat command, and the pure builders repeat
themselves. -/
theorem C8_command_builders_witness :
    build_concat_command c6Probe c6Fmt ["a.mp4"] [0] [] "out.mp4" =
      build_concat_command (fun s => if s = "a.mp4" then some (640, 360)
        else some (1, 1)) c6Fmt ["a.mp4"] [0] [] "out.mp4" ∧
    buildCutCmd c6Fmt [] "in.mp4" "cut.mp4" = buildCutCmd c6Fmt [] "in.mp4" "cut.mp4" := by
  constructor
  · refine (C8_command_builders_deterministic c6Fmt c6Fmt).2.2 c6Probe
      (fun s => if s = "a.mp4" then some (640, 360) else some (1, 1))
      ["a.mp4"] [0] [] "out.mp4" ?_
    intro p hp
    rcases List.mem_singleton.mp hp with rfl
    rfl
  · exact (C8_command_builders_deterministic c6Fmt c6Fmt).1 [] [] "in.mp4" "cut.mp4" rfl

/-- Observable outcome of one `update_job` call: whether the database was
touched, and the logged error text if the write failed.  The function has no
error outcome — in the code every exception is caught and only printed. -/
structure UpdateOutcome where
  attemptedDb : Bool
  logged : Option String
deriving DecidableEq

/-- The SQL text `update_job` builds from its field names. -/
def updateSql (fields : List (String × String)) : String :=
  "UPDATE video_jobs SET " ++
    String.intercalate ", " (fields.map (fun f => f.1 ++ " = %s")) ++
    " WHERE job_id = %s"

/-- Embedding of `update_job` (video_tasks.py lines 98-112).  `dbExec`
abstracts connect + execute + commit (given the SQL and the parameter
values); `now` is the `datetime.utcnow()` value appended as `updated_at`. -/
def update_job (dbExec : String → List String → Except String Unit)
    (job_id : String) (fields : List (String × String)) (now : String) :
    UpdateOutcome :=
  if fields.isEmpty then ⟨false, none⟩
  else
    let fields' := fields ++ [("updated_at", now)]
    match dbExec (updateSql fields') (fields'.map (fun f => f.2) ++ [job_id]) with
    | .ok _ => ⟨true, none⟩
    | .error e => ⟨true, some ("Job update failed for " ++ job_id ++ ": " ++ e)⟩

/-- C9: `update_job` never raises — with no fields it returns without touching
the database; a failing connection/UPDATE is caught and only logged; and the
caller-visible control flow is independent of whether the write succeeded, so
any single job-status write can be lost silently. -/
theorem update_job_match (dbExec : String → List String → Except String Unit)
    (job_id : String) (fields : List (String × String)) (now : String)
    (h : fields.isEmpty = false) :
    update_job dbExec job_id fields now =
      match dbExec (updateSql (fields ++ [("updated_at", now)]))
        ((fields ++ [("updated_at", now)]).map (fun f => f.2) ++ [job_id]) with
      | .ok _ => ⟨true, none⟩
      | .error e =>
        ⟨true, some ("Job update failed for " ++ job_id ++ ": " ++ e)⟩ := by
  rw [update_job, h]
  rfl

theorem C9_update_job_spec (dbExec : String → List String → Except String Unit)
    (job_id : String) (fields : List (String × String)) (now : String) :
    (fields = [] → update_job dbExec job_id fields now = ⟨false, none⟩) ∧
    (∀ e, fields ≠ [] →
      dbExec (updateSql (fields ++ [("updated_at", now)]))
        ((fields ++ [("updated_at", now)]).map (fun f => f.2) ++ [job_id]) =
          .error e →
      update_job dbExec job_id fields now =
        ⟨true, some ("Job update failed for " ++ job_id ++ ": " ++ e)⟩) ∧
    (∀ d1 d2 : String → List String → Except String Unit,
      (update_job d1 job_id fields now).attemptedDb =
        (update_job d2 job_id fields now).attemptedDb) := by
  refine ⟨?_, ?_, ?_⟩
  · intro h
    subst h
    rfl
  · intro e hne hdb
    have hisempty : fields.isEmpty = false :=
      Bool.eq_false_iff.mpr (fun hc => hne (List.isEmpty_iff.mp hc))
    rw [update_job_match dbExec job_id fields now hisempty, hdb]
  · intro d1 d2
    by_cases hf : fields.isEmpty = true
    · rw [update_job, update_job, hf]
      rfl
    · have hf' : fields.isEmpty = false := Bool.eq_false_iff.mpr hf
      rw [update_job_match d1 job_id fields now hf',
        update_job_match d2 job_id fields now hf']
      rcases d1 (updateSql (fields ++ [("updated_at", now)]))
        ((fields ++ [("updated_at", now)]).map (fun f => f.2) ++ [job_id]) with e1 | u1 <;>
        rcases d2 (updateSql (fields ++ [("updated_at", now)]))
          ((fields ++ [("updated_at", now)]).map (fun f => f.2) ++ [job_id]) with e2 | u2 <;>
        rfl

/-- Concrete failing database layer for the C9 witness. -/
def c9Db : String → List String → Except String Unit :=
  fun _ _ => .error "connection refused"

/-- Witness for C9: a failed terminal `failed` write is swallowed — the call
returns normally with only a logged message. -/
theorem C9_update_job_witness :
    update_job c9Db "job1" [("status", "failed")] "t0" =
      ⟨true, some "Job update failed for job1: connection refused"⟩ :=
  (C9_update_job_spec c9Db "job1" [("status", "failed")] "t0").2.1
    "connection refused" (by simp) rfl

/-- One persisted job-record update: only the fields the code passes are
modelled. -/
structure JobUpdate where
  status : Option String := none
  progress : Option Nat := none
  message : Option String := none
  resultJson : Option String := none
deriving DecidableEq

/-- Embedding of `analyze_video_task` (video_tasks.py lines 238-264) at the
level of its update trace and returned dict.  `readFile` is the outcome of
opening/reading the clip, `aiCall` the outcome of `call_gemini_with_retry`
(response text or raised error), `decode`/`dump` abstract `json.loads` /
`json.dumps`.  The returned `Option String` is the `error` field of the
returned dict (`none` on success). -/
def analyze_video_task (decode : String → Option JVal) (dump : JVal → String)
    (readFile : Except String Unit) (aiCall : Except String String) :
    List JobUpdate × Option String :=
  let u0 : JobUpdate :=
    { status := some "processing", message := some "Analyzing video",
      progress := some 5 }
  match readFile with
  | .error e =>
    ([u0, { status := some "failed", progress := some 100,
            message := some ("Analysis failed: " ++ e) }],
     some ("Analysis failed: " ++ e))
  | .ok _ =>
    match aiCall with
    | .error e =>
      ([u0, { status := some "failed", progress := some 100,
              message := some ("Analysis failed: " ++ e) }],
       some ("Analysis failed: " ++ e))
    | .ok txt =>
      ([u0, { status := some "succeeded", progress := some 100,
              resultJson := some (dump (parse_model_response decode txt)),
              message := some "Analysis complete" }],
       none)

/-- C3 (supporting theorem for the loadable tasks): `analyze_video_task`
returns a value for every stage outcome — no exception escapes — and its last
job update is terminal with progress 100: either `succeeded`, or `failed`
with a message carrying the proximate cause prefixed by `Analysis failed:`. -/
theorem C3_analyze_task_terminal (decode : String → Option JVal)
    (dump : JVal → String) (readFile : Except String Unit)
    (aiCall : Except String String) :
    ∃ u, (analyze_video_task decode dump readFile aiCall).1.getLast? = some u ∧
      u.progress = some 100 ∧
      ((u.status = some "succeeded" ∧
        (analyze_video_task decode dump readFile aiCall).2 = none) ∨
       (u.status = some "failed" ∧
        ∃ e, (readFile = .error e ∨ aiCall = .error e) ∧
          u.message = some ("Analysis failed: " ++ e) ∧
          (analyze_video_task decode dump readFile aiCall).2 =
            some ("Analysis failed: " ++ e))) := by
  rcases readFile with e | u
  · exact ⟨_, rfl, rfl, .inr ⟨rfl, e, .inl rfl, rfl, rfl⟩⟩
  · rcases aiCall with e | txt
    · exact ⟨_, rfl, rfl, .inr ⟨rfl, e, .inr rfl, rfl, rfl⟩⟩
    · exact ⟨_, rfl, rfl, .inl ⟨rfl, rfl⟩⟩

/-- Observable outcome of one `/api/edit-video` request: HTTP status, body
message, and whether the render task was dispatched (`edit_video_task.delay`,
which is the only route to any media-tool subprocess for the job). -/
structure EditVideoResponse where
  statusCode : Nat
  body : String
  dispatched : Bool
deriving DecidableEq

/-- The `has_audio_cue` check of `edit_video` (app.py line 735):
`any(isinstance(e, dict) and e.get("type") == "audio_cue" for e in edit_plan or [])`.
Iterating a string yields one-character strings and iterating a dict yields
its string keys, neither of which is a dict, so those give `false`; numbers
are not iterable (`none` models the `TypeError` caught by the outer
handler). -/
def hasAudioCue (plan : JVal) : Option Bool :=
  match (if truthyJ plan then plan else .arr []) with
  | .arr l =>
    some (l.any (fun e =>
      match e with
      | .obj kvs =>
        match jget kvs "type" with
        | some (.str t) => t == "audio_cue"
        | _ => false
      | _ => false))
  | .str _ => some false
  | .obj _ => some false
  | _ => none

/-- Embedding of the `edit_video` route of app.py (lines 705-790) at the
level that decides C7: request validation up to the dispatch of
`edit_video_task`.  `videoFilename` is the uploaded file's name (`none` when
no `video_file` part is present), `editPlanParsed` the result of
`json.loads` on the `edit_plan` form field, `audioFile` the optional
`audio_file` part, `dbDispatch` the outcome of saving files plus inserting
the job row (any exception is caught by the route's 500 handler).  The
audio-start adjustment does not affect the response or dispatch decision and
is not modelled. -/
def edit_video_handler (videoFilename : Option String)
    (editPlanParsed : Except Unit JVal) (audioFile : Option String)
    (dbDispatch : Except String Unit) : EditVideoResponse :=
  match videoFilename with
  | none => ⟨400, "No video file provided", false⟩
  | some fn =>
    if fn = "" then ⟨400, "No selected file", false⟩
    else
      match editPlanParsed with
      | .error _ => ⟨400, "Invalid edit plan JSON", false⟩
      | .ok plan =>
        match hasAudioCue plan with
        | none => ⟨500, "TypeError: argument of type int is not iterable", false⟩
        | some hac =>
          if hac && audioFile.isNone then
            ⟨400,
             "Audio cue requested but no audio file provided. Select/import an audio effect before rendering.",
             false⟩
          else
            match dbDispatch with
            | .ok _ => ⟨202, "Video render queued", true⟩
            | .error e => ⟨500, e, false⟩

/-- C7: a submitted edit job whose parsed edit plan contains an `audio_cue`
entry while no audio file is attached is rejected with a 400 response whose
message says an audio file is required, and the render task is never
dispatched — so no media-tool subprocess can run for that job. -/
theorem C7_edit_video_audio_cue_guard (fn : String) (l : List JVal)
    (dbDispatch : Except String Unit) (hfn : fn ≠ "")
    (hcue : ∃ e ∈ l, ∃ kvs, e = JVal.obj kvs ∧
      jget kvs "type" = some (.str "audio_cue")) :
    edit_video_handler (some fn) (.ok (.arr l)) none dbDispatch =
      ⟨400,
       "Audio cue requested but no audio file provided. Select/import an audio effect before rendering.",
       false⟩ := by
  rcases l with _ | ⟨x, xs⟩
  · rcases hcue with ⟨e, he, -⟩
    exact absurd he (List.not_mem_nil e)
  · have hany : (x :: xs).any (fun e =>
        match e with
        | JVal.obj kvs =>
          match jget kvs "type" with
          | some (.str t) => t == "audio_cue"
          | _ => false
        | _ => false) = true := by
      rcases hcue with ⟨e, he, kvs, rfl, ht⟩
      refine List.any_eq_true.mpr ⟨_, he, ?_⟩
      show (match jget kvs "type" with
        | some (JVal.str t) => t == "audio_cue"
        | _ => false) = true
      rw [ht]
      rfl
    have hcue2 : hasAudioCue (.arr (x :: xs)) = some true := by
      rw [show hasAudioCue (.arr (x :: xs)) =
        some ((x :: xs).any (fun e =>
          match e with
          | JVal.obj kvs =>
            match jget kvs "type" with
            | some (.str t) => t == "audio_cue"
            | _ => false
          | _ => false)) from rfl, hany]
    have h1 : edit_video_handler (some fn) (.ok (.arr (x :: xs))) none dbDispatch =
        (if fn = "" then (⟨400, "No selected file", false⟩ : EditVideoResponse)
         else
           match hasAudioCue (.arr (x :: xs)) with
           | none =>
             ⟨500, "TypeError: argument of type int is not iterable", false⟩
           | some hac =>
             if hac && (none : Option String).isNone then
               ⟨400,
                "Audio cue requested but no audio file provided. Select/import an audio effect before rendering.",
                false⟩
             else
               match dbDispatch with
               | .ok _ => ⟨202, "Video render queued", true⟩
               | .error e => ⟨500, e, false⟩) := rfl
    rw [h1, if_neg hfn, hcue2]
    rfl

/-- Witness for C7: a one-entry plan with an `audio_cue` and no audio file is
rejected with the 400 message and no dispatch. -/
theorem C7_edit_video_audio_cue_witness :
    edit_video_handler (some "clip.mp4")
      (.ok (.arr [.obj [("type", .str "audio_cue")]])) none (.ok ()) =
      ⟨400,
       "Audio cue requested but no audio file provided. Select/import an audio effect before rendering.",
       false⟩ :=
  C7_edit_video_audio_cue_guard "clip.mp4" [.obj [("type", .str "audio_cue")]]
    (.ok ()) (by decide)
    ⟨.obj [("type", .str "audio_cue")], by simp,
      [("type", .str "audio_cue")], rfl, rfl⟩
